import Mathlib

/-!
Verification development for the backward discovery engine of
`download-iglive` (Rust). The definitions below are a shallow embedding of
`src/state.rs`, `src/mpd.rs` and `src/download/backwards.rs`:

* Rust `isize` timestamps and deltas become `Int`; `usize` becomes `Nat`.
* `HashMap<isize, i32>` (the delta histogram) becomes an association list
  `List (Int × Int)` whose order stands for the map's iteration order;
  `HashMap::insert` overwrites in place, `entry(k).or_insert(0) += 1`
  increments in place or appends.
* `BTreeSet<isize>` / `HashSet<usize>` become `Finset Int` / `Finset Nat`.
* The asynchronous probe batch of `download_backwards` is embedded by an
  explicit environment (`BatchEnv`): the HTTP outcome of each probed
  timestamp and the completion (processing) order of the batch results are
  inputs, since `buffer_unordered` collects them in arrival order.
* The loop body is `download_backwards_iter`; the `while` loop is the
  fuelled `download_backwards_loop`.  Ghost fields (`submitted`, `calls`,
  `history`, `ptsEver`) record the observable call sequence that the
  specification talks about; they influence nothing.
-/

namespace IgLive

set_option maxRecDepth 40000

/-- MediaType from `src/mpd.rs`. -/
inductive MediaType where
  | video
  | audio
  | unknown
deriving DecidableEq, Repr

/-- Outcome of one `download_file` probe, from the error taxonomy consumed by
`download_backwards` (`IgLiveError::StatusNotFound`, `IgLiveError::PtsTooEarly`,
other fetch errors, and tokio task join errors). -/
inductive FetchOutcome where
  | ok
  | statusNotFound
  | ptsTooEarly
  | otherError
  | taskError
deriving DecidableEq, Repr

/-- The part of `Representation` (src/mpd.rs) the engine reads. -/
structure Representation where
  mime_type : String
deriving DecidableEq

/-- Rust `str::starts_with`, embedded on the character sequences of the
two strings (kernel-evaluable, unlike `String.startsWith`). -/
def strStartsWith (s p : String) : Bool :=
  p.data.isPrefixOf s.data

/-- Representation::media_type from `src/mpd.rs`. -/
def Representation.media_type (r : Representation) : MediaType :=
  if strStartsWith r.mime_type "video/" then .video
  else if strStartsWith r.mime_type "audio/" then .audio
  else .unknown

/-- `HashMap::insert` on the association-list model: overwrite the binding in
place if the key is present, otherwise append it. -/
def hmInsert : List (Int × Int) → Int → Int → List (Int × Int)
  | [], k, v => [(k, v)]
  | (k', v') :: rest, k, v =>
      if k' = k then (k, v) :: rest else (k', v') :: hmInsert rest k v

/-- `*map.entry(d).or_insert(0) += 1` on the association-list model. -/
def bumpDelta : List (Int × Int) → Int → List (Int × Int)
  | [], d => [(d, 1)]
  | (k, c) :: rest, d =>
      if k = d then (k, c + 1) :: rest else (k, c) :: bumpDelta rest d

/-- Association-list lookup (the `HashMap` read). -/
def hmLookup : List (Int × Int) → Int → Option Int
  | [], _ => none
  | (k, v) :: rest, d => if k = d then some v else hmLookup rest d

/-- The `default_delta` histogram built by `State::new` in `src/state.rs`,
with the inserts performed in program order. -/
def default_delta : List (Int × Int) :=
  let m := (List.range 9).foldl
    (fun m i =>
      let x : Int := 16 + i
      hmInsert (hmInsert (hmInsert m (x * 100) 10) (x * 100 + 33) 2) (x * 100 + 67) 2)
    []
  let m := (List.range 6).foldl
    (fun m i =>
      let x : Int := 10 + i
      hmInsert (hmInsert (hmInsert m (x * 100) 1) (x * 100 + 33) 1) (x * 100 + 67) 1)
    m
  let m := (List.range 6).foldl
    (fun m i =>
      let x : Int := 25 + i
      hmInsert (hmInsert (hmInsert m (x * 100) 1) (x * 100 + 33) 1) (x * 100 + 67) 1)
    m
  let m := (List.range 21).foldl
    (fun m i =>
      let x : Int := 70 + i
      hmInsert (hmInsert (hmInsert m (x * 100) 1) (x * 100 + 33) 1) (x * 100 + 67) 1)
    m
  hmInsert (hmInsert m 2000 100) 100 2

/-- The shared `State` of `src/state.rs`, restricted to the fields the
discovery engine reads (maps keyed by `MediaType` become option-valued
functions: `none` models an absent key, whose indexing panics). -/
structure State where
  downloaded_segs : MediaType → Option (Finset Nat)
  deltas : MediaType → Option (List (Int × Int))
  back_pts : MediaType → Option Nat

/-- State::new from `src/state.rs`: empty segment sets and the
`default_delta` prior for Video and Audio; no entry for Unknown. -/
def State.new : State where
  downloaded_segs := fun m =>
    match m with
    | .video => some ∅
    | .audio => some ∅
    | .unknown => none
  deltas := fun m =>
    match m with
    | .video => some default_delta
    | .audio => some default_delta
    | .unknown => none
  back_pts := fun _ => none

/-- The initial computation of `latest_t` in `download_backwards`
(src/download/backwards.rs lines 46-49):
`state.downloaded_segs[&media_type].iter().min().unwrap()`.
`none` models a panic (absent map entry, or `unwrap` of `min` on an empty
set); `some t` is the value the loop starts from. -/
def initialLatestT (segs : MediaType → Option (Finset Nat)) (m : MediaType) : Option Nat :=
  match segs m with
  | none => none
  | some s => if h : s.Nonempty then some (s.min' h) else none

/-- Stable insertion step for sorting by descending count: `x` is placed
before the first element whose count is not larger, so elements with equal
counts keep their relative order (Rust `slice::sort_by` is stable). -/
def insertDesc (x : Int × Int) : List (Int × Int) → List (Int × Int)
  | [] => [x]
  | y :: ys => if x.2 < y.2 then y :: insertDesc x ys else x :: y :: ys

/-- Stable sort of the delta snapshot by descending count, modelling
`deltas.sort_by(|(_, a), (_, b)| b.cmp(a))` in `find_next_candidates`. -/
def sortDesc (l : List (Int × Int)) : List (Int × Int) :=
  l.foldr insertDesc []

/-- Accumulator of the candidate search in `find_next_candidates`:
the batch built so far, the (mutably borrowed) `visited` set, and whether
the early `return` (batch full) has fired. -/
structure GenAcc where
  cands : List (Int × Int)
  visited : Finset Int
  found : Bool
deriving DecidableEq

/-- One trial timestamp of `find_next_candidates`
(src/download/backwards.rs lines 204-211): admit `c` iff
`lower_bound < c < latest_t` and `c` is unvisited; on admission push
`(c, latest_t - c)`, insert `c` into `visited`, and stop the search once
the batch holds `parallel_candidates` entries. -/
def fncTrial (lt lb : Int) (pc : Nat) (acc : GenAcc) (c : Int) : GenAcc :=
  if acc.found then acc
  else if lb < c ∧ c < lt ∧ c ∉ acc.visited then
    let cands := acc.cands ++ [(c, lt - c)]
    { cands := cands, visited := insert c acc.visited, found := pc ≤ cands.length }
  else acc

/-- The inner `for (delta, _) in &deltas` loop of `find_next_candidates` at a
fixed offset: each delta contributes the two trials
`latest_t - (delta + offset)` and `latest_t - (delta - offset)`. -/
def fncDeltas (lt lb : Int) (pc : Nat) (offset : Int) :
    List (Int × Int) → GenAcc → GenAcc
  | [], acc => acc
  | (d, _) :: rest, acc =>
      if acc.found then acc
      else fncDeltas lt lb pc offset rest
        (fncTrial lt lb pc (fncTrial lt lb pc acc (lt - (d + offset))) (lt - (d - offset)))

/-- The outer `for offset in 0..=search_range` loop of
`find_next_candidates`, with `fuel` offsets left to scan starting at
`offset`. -/
def fncGo (lt lb : Int) (pc : Nat) (sorted : List (Int × Int)) :
    Nat → Int → GenAcc → GenAcc
  | 0, _, acc => acc
  | fuel + 1, offset, acc =>
      if acc.found then acc
      else fncGo lt lb pc sorted fuel (offset + 1) (fncDeltas lt lb pc offset sorted acc)

/-- find_next_candidates from `src/download/backwards.rs` (lines 183-217):
sort the delta snapshot by descending count (stably), scan offsets
`0..=1000`, and return the admitted batch together with the updated
`visited` set (`search_range = 1000`, hence `1001` offsets). -/
def find_next_candidates (lt : Int) (visited : Finset Int) (lb : Int)
    (deltas : List (Int × Int)) (pc : Nat) : List (Int × Int) × Finset Int :=
  let acc := fncGo lt lb pc (sortDesc deltas) 1001 0 ⟨[], visited, false⟩
  (acc.cands, acc.visited)

/-- Per-loop state of `download_backwards` plus the shared-state fields the
loop touches for its media type (`deltas`, `segs`), plus ghost fields that
record the observable behaviour: `submitted` is the sequence of timestamps
handed to `download_file`, `calls` pairs each of them with the boolean
`skipped_segments == 0` the code passes as the fetcher's `ignore_pts`
argument, `history` is the sequence of values taken by `latest_t`, and
`ptsEver` collects every timestamp that ever came back `PtsTooEarly`. -/
structure LoopState where
  latestT : Int
  visited : Finset Int
  ptsTooEarlySegs : Finset Int
  lowerBound : Int
  prevDelta : Int
  skippedSegments : Nat
  deltas : List (Int × Int)
  segs : Finset Int
  submitted : List Int
  calls : List (Int × Bool)
  history : List Int
  ptsEver : Finset Int
deriving DecidableEq

/-- Processing of one collected probe result
(src/download/backwards.rs lines 142-176).  On success the fetched
timestamp becomes `latest_t`, its delta count is bumped, `skipped_segments`
resets, and the PTS-rejected candidates are removed from `visited` and
cleared; the registration of the fetched timestamp in `downloaded_segs`
is modelled from the spec: `download_file` (src/download/mod.rs, not under
src/) "registers `t` in `downloaded_segs[m]`" on success.  `PtsTooEarly`
assigns `lower_bound := candidate_t` and records the candidate.
`StatusNotFound`, other fetch errors and task errors change nothing. -/
def processResult (s : LoopState) (r : Int × Int × FetchOutcome) : LoopState :=
  match r with
  | (t, d, .ok) =>
      { s with prevDelta := d
               latestT := t
               deltas := bumpDelta s.deltas d
               skippedSegments := 0
               visited := s.visited \ s.ptsTooEarlySegs
               ptsTooEarlySegs := ∅
               segs := insert t s.segs
               history := s.history ++ [t] }
  | (t, _, .ptsTooEarly) =>
      { s with lowerBound := t
               ptsTooEarlySegs := insert t s.ptsTooEarlySegs
               ptsEver := insert t s.ptsEver }
  | (_, _, .statusNotFound) => s
  | (_, _, .otherError) => s
  | (_, _, .taskError) => s

/-- Dispatch of a candidate batch to `download_file`
(src/download/backwards.rs lines 88-136): each candidate timestamp is
submitted once, and the spawned task passes `(skipped_segments == 0)` as
the fetcher's boolean argument (`ignore_pts` per spec 4.B), captured at
spawn time. -/
def dispatchBatch (s : LoopState) (cands : List (Int × Int)) : LoopState :=
  { s with submitted := s.submitted ++ cands.map Prod.fst
           calls := s.calls ++ cands.map (fun p => (p.1, s.skippedSegments == 0)) }

/-- Environment of one loop iteration: the HTTP outcome each probed
timestamp would produce, and the completion order of the batch
(`buffer_unordered` yields results in arrival order, given here as indices
into the candidate list). -/
structure BatchEnv where
  outcome : Int → FetchOutcome
  arrival : List Nat

/-- The vector of collected results of one batch, in arrival order. -/
def mkResults (env : BatchEnv) (cands : List (Int × Int)) :
    List (Int × Int × FetchOutcome) :=
  env.arrival.filterMap fun i => (cands[i]?).map fun p => (p.1, p.2, env.outcome p.1)

/-- The environment arrival order is a permutation of the batch. -/
def WellFormedEnv (env : BatchEnv) (cands : List (Int × Int)) : Prop :=
  env.arrival.Perm (List.range cands.length)

/-- assumed_missing_delta in `download_backwards`. -/
def assumedMissingDelta : Int := 2000

/-- One iteration of the `while latest_t > start_frame` loop of
`download_backwards` (src/download/backwards.rs lines 63-177), returning
the new state and whether the loop `break`s (give-up).  Empty batch:
gap recovery — `latest_t -= 2000`, `lower_bound = 0`, the new `latest_t`
is inserted into `visited` and then the PTS-rejected candidates are
removed from it (in that order, as in the source), `skipped_segments`
increments, and the loop gives up when it exceeds 5.  Non-empty batch:
dispatch all candidates and fold `processResult` over the collected
results in arrival order. -/
def download_backwards_iter (pc : Nat) (env : BatchEnv) (s : LoopState) :
    LoopState × Bool :=
  if ((find_next_candidates s.latestT s.visited s.lowerBound s.deltas pc).1).isEmpty then
    ({ s with latestT := s.latestT - assumedMissingDelta
              lowerBound := 0
              visited := (insert (s.latestT - assumedMissingDelta)
                  (find_next_candidates s.latestT s.visited s.lowerBound s.deltas pc).2)
                \ s.ptsTooEarlySegs
              ptsTooEarlySegs := ∅
              skippedSegments := s.skippedSegments + 1
              history := s.history ++ [s.latestT - assumedMissingDelta] },
     decide (5 < s.skippedSegments + 1))
  else
    ((mkResults env (find_next_candidates s.latestT s.visited s.lowerBound s.deltas pc).1).foldl
       processResult
       (dispatchBatch
         { s with visited := (find_next_candidates s.latestT s.visited s.lowerBound s.deltas pc).2 }
         (find_next_candidates s.latestT s.visited s.lowerBound s.deltas pc).1),
     false)

/-- Default environment (used when the environment list is exhausted). -/
def defaultEnv : BatchEnv := ⟨fun _ => .statusNotFound, []⟩

/-- The fuelled `while latest_t > start_frame` loop of
`download_backwards`: run `download_backwards_iter` while the guard holds
and no `break` fired, consuming one environment per iteration. -/
def download_backwards_loop (sf : Int) (pc : Nat) :
    Nat → List BatchEnv → LoopState → LoopState
  | 0, _, s => s
  | fuel + 1, envs, s =>
      if s.latestT > sf then
        match download_backwards_iter pc (envs.headD defaultEnv) s with
        | (s', true) => s'
        | (s', false) => download_backwards_loop sf pc fuel envs.tail s'
      else s

/-- Base concrete loop state: one downloaded segment at 9000, fresh
bookkeeping. -/
def exBase : LoopState :=
  { latestT := 9000, visited := ∅, ptsTooEarlySegs := ∅, lowerBound := 0,
    prevDelta := 0, skippedSegments := 0, deltas := [], segs := {9000},
    submitted := [], calls := [], history := [9000], ptsEver := ∅ }

/-- A state in which the generator is blocked: a `PtsTooEarly` probe at
8999 raised `lower_bound` to `latest_t - 1`, so no admissible candidate
exists and the next iteration takes the gap-recovery branch. -/
def exBlocked : LoopState :=
  { exBase with deltas := [(1000, 9)], lowerBound := 8999,
                visited := {8999}, ptsTooEarlySegs := {8999}, ptsEver := {8999} }

/-- `exBlocked` with five segments already skipped: the next gap-recovery
increment pushes `skipped_segments` above the ceiling. -/
def exAtCeiling : LoopState :=
  { exBlocked with skippedSegments := 5 }

/-- Environment whose probes all return 404. -/
def envNotFound : BatchEnv := ⟨fun _ => .statusNotFound, [0, 1, 2]⟩

/-- State with two deltas, producing the batch
`[(8000, 1000), (7500, 1500)]` from `latest_t = 9000`. -/
def exC2 : LoopState := { exBase with deltas := [(1000, 9), (1500, 5)] }

/-- Environment whose probes all return `PtsTooEarly`. -/
def envPts : BatchEnv := ⟨fun _ => .ptsTooEarly, [0, 1]⟩

/-- State with two deltas, producing the batch
`[(8000, 1000), (8900, 100)]` from `latest_t = 9000`. -/
def exC3 : LoopState := { exBase with deltas := [(1000, 9), (100, 5)] }

/-- Environment whose probes all succeed, processed in batch order. -/
def envOk : BatchEnv := ⟨fun _ => .ok, [0, 1]⟩

/-- State with four deltas of pairwise distinct counts (so the sorted
order is independent of the snapshot order), producing the batch
`[(8000, 1000), (7500, 1500), (8900, 100)]` from `latest_t = 9000` with
`parallel_candidates = 3`. -/
def exC4 : LoopState :=
  { exBase with deltas := [(1000, 9), (1500, 5), (100, 2), (900, 1)] }

/-- Environment of the first C4 batch: the probe at 8900 succeeds, the
probes at 8000 and 7500 come back `PtsTooEarly`, processed in batch
order — so the success is processed last and reinstates both rejected
candidates by removing them from `visited`. -/
def envC4 : BatchEnv := ⟨fun t => if t = 8900 then .ok else .ptsTooEarly, [0, 1, 2]⟩

/-- Invariant tying submissions to the bookkeeping sets: every submitted
timestamp is still visited or was once rejected as `PtsTooEarly`; a
timestamp submitted twice was rejected as `PtsTooEarly`; and the current
`pts_too_early` set is contained in the ghost set of ever-rejected
timestamps. -/
def SubmitInv (s : LoopState) : Prop :=
  (∀ t ∈ s.submitted, t ∈ s.visited ∨ t ∈ s.ptsEver) ∧
  (∀ t : Int, 2 ≤ s.submitted.count t → t ∈ s.ptsEver) ∧
  (∀ t ∈ s.ptsTooEarlySegs, t ∈ s.ptsEver)

/-- A state in which 8000 was already probed once (and rejected as
`PtsTooEarly`, hence reinstated: it is absent from `visited` but present in
the ghost set), so the next batch submits it a second time. -/
def exC4b : LoopState :=
  { exBase with deltas := [(1000, 9)], submitted := [8000], ptsEver := {8000} }

/-- The elements of `l` whose count equals `c`, in order.  Two lists are
"stably" rearranged versions of each other precisely when all their count
fibers agree. -/
def countFiber (c : Int) (l : List (Int × Int)) : List (Int × Int) :=
  l.filter fun p => p.2 == c

/-- Sorted by non-increasing count. -/
def DescSorted (l : List (Int × Int)) : Prop :=
  l.Pairwise fun x y => y.2 ≤ x.2

/-- `s` is the stable descending-count sort of `l`: sorted, and every
count fiber keeps the order it has in `l`. -/
def IsStableDescSort (l s : List (Int × Int)) : Prop :=
  DescSorted s ∧ ∀ c : Int, countFiber c s = countFiber c l

/-- The core candidate scan applied to an already sorted snapshot;
`find_next_candidates` is this run at the code's own stable sort. -/
def fncSortedRun (lt : Int) (v : Finset Int) (lb : Int)
    (sorted : List (Int × Int)) (pc : Nat) : List (Int × Int) × Finset Int :=
  ((fncGo lt lb pc sorted 1001 0 ⟨[], v, false⟩).cands,
   (fncGo lt lb pc sorted 1001 0 ⟨[], v, false⟩).visited)

/-- State with one delta, producing the single-candidate batch
`[(8000, 1000)]` from `latest_t = 9000` with `skipped_segments = 0`. -/
def exC1 : LoopState := { exBase with deltas := [(1000, 9)] }

/-- Spec-side rendering of the §6 prior histogram, following the claim's
words (not the code): count 10 at `100·x` and count 2 at `100·x + 33` and
`100·x + 67` for `x` in 16..=24; count 1 at those three offsets for `x` in
10..=15, 25..=30 and 70..=90; count 2 at key 100; and the final count at
key 2000 is 100, overriding the `x = 20` rule. -/
def c8SpecPrior : List (Int × Int) :=
  ((List.range 9).map fun i =>
    let x : Int := 16 + i
    (x * 100, if x * 100 = 2000 then (100 : Int) else 10)) ++
  ((List.range 9).map fun i =>
    let x : Int := 16 + i
    (x * 100 + 33, (2 : Int))) ++
  ((List.range 9).map fun i =>
    let x : Int := 16 + i
    (x * 100 + 67, (2 : Int))) ++
  ((List.range 6).map fun i =>
    let x : Int := 10 + i
    [(x * 100, (1 : Int)), (x * 100 + 33, (1 : Int)), (x * 100 + 67, (1 : Int))]).flatten ++
  ((List.range 6).map fun i =>
    let x : Int := 25 + i
    [(x * 100, (1 : Int)), (x * 100 + 33, (1 : Int)), (x * 100 + 67, (1 : Int))]).flatten ++
  ((List.range 21).map fun i =>
    let x : Int := 70 + i
    [(x * 100, (1 : Int)), (x * 100 + 33, (1 : Int)), (x * 100 + 67, (1 : Int))]).flatten ++
  [(100, 2)]

/-! ### Invariants of the candidate generator -/

/-- Invariant of the candidate-search accumulator relative to the inputs of
`find_next_candidates`: every admitted pair is in bounds with the correct
delta, was not previously visited, the admitted timestamps are pairwise
distinct and all recorded in the running `visited` set, and the running
`visited` set is the initial one plus exactly the admitted timestamps. -/
def GenOk (lt lb : Int) (v0 : Finset Int) (acc : GenAcc) : Prop :=
  (∀ p ∈ acc.cands, lb < p.1 ∧ p.1 < lt ∧ p.2 = lt - p.1 ∧ p.1 ∉ v0) ∧
  (acc.cands.map Prod.fst).Nodup ∧
  (∀ p ∈ acc.cands, p.1 ∈ acc.visited) ∧
  v0 ⊆ acc.visited ∧
  (∀ c ∈ acc.visited, c ∈ v0 ∨ c ∈ acc.cands.map Prod.fst)

theorem genOk_trial {lt lb : Int} {v0 : Finset Int} {acc : GenAcc}
    (h : GenOk lt lb v0 acc) (pc : Nat) (c : Int) :
    GenOk lt lb v0 (fncTrial lt lb pc acc c) := by
  obtain ⟨hb, hn, hm, hs, hc⟩ := h
  unfold fncTrial
  split
  · exact ⟨hb, hn, hm, hs, hc⟩
  · split
    · next hg =>
      obtain ⟨hg1, hg2, hg3⟩ := hg
      refine ⟨?_, ?_, ?_, ?_, ?_⟩
      · intro p hp
        rcases List.mem_append.mp hp with hp | hp
        · exact hb p hp
        · rcases List.mem_singleton.mp hp with rfl
          exact ⟨hg1, hg2, rfl, fun hv0 => hg3 (hs hv0)⟩
      · have hcn : c ∉ acc.cands.map Prod.fst := by
          intro hmem
          rcases List.mem_map.mp hmem with ⟨p, hp, hpc⟩
          exact hg3 (hpc ▸ hm p hp)
        have hmapped : ((acc.cands ++ [(c, lt - c)]).map Prod.fst)
            = acc.cands.map Prod.fst ++ [c] := by simp
        rw [hmapped]
        refine hn.append (List.nodup_singleton c) ?_
        intro a ha hb
        rcases List.mem_singleton.mp hb with rfl
        exact hcn ha
      · intro p hp
        rcases List.mem_append.mp hp with hp | hp
        · exact Finset.mem_insert_of_mem (hm p hp)
        · rcases List.mem_singleton.mp hp with rfl
          exact Finset.mem_insert_self _ _
      · exact hs.trans (Finset.subset_insert _ _)
      · intro x hx
        rcases Finset.mem_insert.mp hx with rfl | hx
        · right; simp
        · rcases hc x hx with hx | hx
          · exact Or.inl hx
          · right; simpa using Or.inl (by simpa using hx)
    · exact ⟨hb, hn, hm, hs, hc⟩

theorem genOk_deltas {lt lb : Int} {v0 : Finset Int} (pc : Nat) (offset : Int) :
    ∀ (l : List (Int × Int)) (acc : GenAcc), GenOk lt lb v0 acc →
      GenOk lt lb v0 (fncDeltas lt lb pc offset l acc)
  | [], acc, h => h
  | (d, cnt) :: rest, acc, h => by
      unfold fncDeltas
      split
      · exact h
      · exact genOk_deltas pc offset rest _ (genOk_trial (genOk_trial h pc _) pc _)

theorem genOk_go {lt lb : Int} {v0 : Finset Int} (pc : Nat)
    (sorted : List (Int × Int)) :
    ∀ (fuel : Nat) (offset : Int) (acc : GenAcc), GenOk lt lb v0 acc →
      GenOk lt lb v0 (fncGo lt lb pc sorted fuel offset acc)
  | 0, _, _, h => h
  | fuel + 1, offset, acc, h => by
      unfold fncGo
      split
      · exact h
      · exact genOk_go pc sorted fuel (offset + 1) _ (genOk_deltas pc offset sorted acc h)

/-- Bundle of structural facts about `find_next_candidates`: candidate
bounds and deltas, freshness with respect to the incoming `visited` set,
distinctness of the batch, and the characterisation of the returned
`visited` set. -/
theorem find_next_candidates_inv (lt lb : Int) (v : Finset Int)
    (d : List (Int × Int)) (pc : Nat) :
    (∀ p ∈ (find_next_candidates lt v lb d pc).1,
        lb < p.1 ∧ p.1 < lt ∧ p.2 = lt - p.1 ∧ p.1 ∉ v) ∧
    ((find_next_candidates lt v lb d pc).1.map Prod.fst).Nodup ∧
    (∀ p ∈ (find_next_candidates lt v lb d pc).1,
        p.1 ∈ (find_next_candidates lt v lb d pc).2) ∧
    v ⊆ (find_next_candidates lt v lb d pc).2 ∧
    (∀ c ∈ (find_next_candidates lt v lb d pc).2,
        c ∈ v ∨ c ∈ (find_next_candidates lt v lb d pc).1.map Prod.fst) := by
  have h0 : GenOk lt lb v (⟨[], v, false⟩ : GenAcc) := by
    refine ⟨?_, ?_, ?_, ?_, ?_⟩ <;> simp
  have h := genOk_go pc (sortDesc d) 1001 0 _ h0
  exact h

/-- When the batch comes back empty, `visited` is unchanged. -/
theorem find_next_candidates_nil_visited {lt lb : Int} {v : Finset Int}
    {d : List (Int × Int)} {pc : Nat}
    (h : (find_next_candidates lt v lb d pc).1 = []) :
    (find_next_candidates lt v lb d pc).2 = v := by
  obtain ⟨-, -, -, hs, hc⟩ := find_next_candidates_inv lt lb v d pc
  refine Finset.Subset.antisymm ?_ hs
  intro x hx
  rcases hc x hx with hx | hx
  · exact hx
  · rw [h] at hx; simp at hx

/-- When no integer lies strictly between `lower_bound` and `latest_t`,
the generator returns an empty batch and leaves `visited` unchanged. -/
theorem find_next_candidates_tight {lt lb : Int} (v : Finset Int)
    (d : List (Int × Int)) (pc : Nat) (h : lt ≤ lb + 1) :
    find_next_candidates lt v lb d pc = ([], v) := by
  have hnil : (find_next_candidates lt v lb d pc).1 = [] := by
    obtain ⟨hb, -, -, -, -⟩ := find_next_candidates_inv lt lb v d pc
    cases hcand : (find_next_candidates lt v lb d pc).1 with
    | nil => rfl
    | cons p rest =>
        obtain ⟨h1, h2, -, -⟩ := hb p (by rw [hcand]; simp)
        omega
  have hv := find_next_candidates_nil_visited hnil
  exact Prod.ext hnil hv

/-! ### Batch processing lemmas -/

/-- Every collected result of a batch carries a candidate of that batch and
the outcome the environment assigns to its timestamp. -/
theorem mkResults_mem {env : BatchEnv} {cands : List (Int × Int)}
    {r : Int × Int × FetchOutcome} (h : r ∈ mkResults env cands) :
    (r.1, r.2.1) ∈ cands ∧ r.2.2 = env.outcome r.1 := by
  rcases List.mem_filterMap.mp h with ⟨i, -, hi⟩
  rcases Option.map_eq_some'.mp hi with ⟨p, hp, rfl⟩
  exact ⟨List.getElem?_mem hp, rfl⟩

/-- Preservation of a predicate along the result-processing fold. -/
theorem foldl_processResult_inv (P : LoopState → Prop) :
    ∀ (l : List (Int × Int × FetchOutcome)) (s : LoopState), P s →
      (∀ s' r, r ∈ l → P s' → P (processResult s' r)) →
      P (l.foldl processResult s)
  | [], s, hP, _ => hP
  | r :: rest, s, hP, hstep => by
      refine foldl_processResult_inv P rest (processResult s r)
        (hstep s r (by simp) hP) ?_
      intro s' r' hr' hs'
      exact hstep s' r' (by simp [hr']) hs'

/-- Unfolding of the gap-recovery branch of the loop body. -/
theorem download_backwards_iter_empty {pc : Nat} {env : BatchEnv} {s : LoopState}
    (h : (find_next_candidates s.latestT s.visited s.lowerBound s.deltas pc).1 = []) :
    download_backwards_iter pc env s =
      ({ s with latestT := s.latestT - assumedMissingDelta
                lowerBound := 0
                visited := (insert (s.latestT - assumedMissingDelta) s.visited)
                  \ s.ptsTooEarlySegs
                ptsTooEarlySegs := ∅
                skippedSegments := s.skippedSegments + 1
                history := s.history ++ [s.latestT - assumedMissingDelta] },
       decide (5 < s.skippedSegments + 1)) := by
  rw [download_backwards_iter, if_pos (by simp [h]), find_next_candidates_nil_visited h]

/-- Unfolding of the batch branch of the loop body. -/
theorem download_backwards_iter_batch {pc : Nat} {env : BatchEnv} {s : LoopState}
    (h : (find_next_candidates s.latestT s.visited s.lowerBound s.deltas pc).1 ≠ []) :
    download_backwards_iter pc env s =
      ((mkResults env (find_next_candidates s.latestT s.visited s.lowerBound s.deltas pc).1).foldl
         processResult
         (dispatchBatch
           { s with visited := (find_next_candidates s.latestT s.visited s.lowerBound s.deltas pc).2 }
           (find_next_candidates s.latestT s.visited s.lowerBound s.deltas pc).1),
       false) := by
  rw [download_backwards_iter, if_neg (by simp [h])]

/-- A predicate preserved by every loop iteration is preserved by the
whole fuelled loop. -/
theorem download_backwards_loop_inv (P : LoopState → Prop)
    (hstep : ∀ (pc : Nat) (env : BatchEnv) (s : LoopState),
      P s → P (download_backwards_iter pc env s).1) (sf : Int) (pc : Nat) :
    ∀ (fuel : Nat) (envs : List BatchEnv) (s : LoopState), P s →
      P (download_backwards_loop sf pc fuel envs s)
  | 0, _, _, h => h
  | fuel + 1, envs, s, h => by
      rw [download_backwards_loop]
      split
      · rcases hiter : download_backwards_iter pc (envs.headD defaultEnv) s with ⟨s', b⟩
        have hs' : P s' := by
          have := hstep pc (envs.headD defaultEnv) s h
          rwa [hiter] at this
        cases b
        · exact download_backwards_loop_inv P hstep sf pc fuel envs.tail s' hs'
        · exact hs'
      · exact h

/-! ### C5: candidate bounds and non-negative lower bound -/

/-- C5: every pair returned by the candidate generator satisfies
`lower_bound < candidate_t < latest_t` with `delta = latest_t - candidate_t`;
the loop body and hence the whole loop preserve `0 ≤ lower_bound`
(gap recovery resets it to 0 and a `PtsTooEarly` result assigns an admitted
candidate, which exceeds the non-negative bound in force at generation);
consequently with a non-negative lower bound every admitted candidate is
strictly positive. -/
theorem c5_candidate_bounds :
    (∀ (lt lb : Int) (v : Finset Int) (d : List (Int × Int)) (pc : Nat),
        ∀ p ∈ (find_next_candidates lt v lb d pc).1,
          lb < p.1 ∧ p.1 < lt ∧ p.2 = lt - p.1) ∧
    (∀ (pc : Nat) (env : BatchEnv) (s : LoopState),
        0 ≤ s.lowerBound → 0 ≤ (download_backwards_iter pc env s).1.lowerBound) ∧
    (∀ (sf : Int) (pc fuel : Nat) (envs : List BatchEnv) (s : LoopState),
        0 ≤ s.lowerBound → 0 ≤ (download_backwards_loop sf pc fuel envs s).lowerBound) ∧
    (∀ (lt lb : Int) (v : Finset Int) (d : List (Int × Int)) (pc : Nat), 0 ≤ lb →
        ∀ p ∈ (find_next_candidates lt v lb d pc).1, 0 < p.1) := by
  have hgen : ∀ (lt lb : Int) (v : Finset Int) (d : List (Int × Int)) (pc : Nat),
      ∀ p ∈ (find_next_candidates lt v lb d pc).1,
        lb < p.1 ∧ p.1 < lt ∧ p.2 = lt - p.1 := by
    intro lt lb v d pc p hp
    obtain ⟨h1, h2, h3, -⟩ := (find_next_candidates_inv lt lb v d pc).1 p hp
    exact ⟨h1, h2, h3⟩
  have hiter : ∀ (pc : Nat) (env : BatchEnv) (s : LoopState),
      0 ≤ s.lowerBound → 0 ≤ (download_backwards_iter pc env s).1.lowerBound := by
    intro pc env s hs
    by_cases hc : (find_next_candidates s.latestT s.visited s.lowerBound s.deltas pc).1 = []
    · rw [download_backwards_iter_empty hc]
    · rw [download_backwards_iter_batch hc]
      refine foldl_processResult_inv (fun x => 0 ≤ x.lowerBound) _ _ hs ?_
      intro s' r hr hs'
      rcases r with ⟨t, d, o⟩
      cases o <;> simp only [processResult]
      · exact hs'
      · exact hs'
      · obtain ⟨hmem, -⟩ := mkResults_mem hr
        have := (hgen s.latestT s.lowerBound s.visited s.deltas pc (t, d) hmem).1
        omega
      · exact hs'
      · exact hs'
  refine ⟨hgen, hiter, ?_, ?_⟩
  · intro sf pc fuel envs s hs
    exact download_backwards_loop_inv (fun x => 0 ≤ x.lowerBound)
      (fun pc' env' s' h => hiter pc' env' s' h) sf pc fuel envs s hs
  · intro lt lb v d pc hlb p hp
    have := (hgen lt lb v d pc p hp).1
    omega

/-- Witness for C5 at concrete inputs: the batch generated from
`latest_t = 9000`, empty `visited`, `lower_bound = 0` and one delta 1000
contains `(8000, 1000)`, which is in bounds and strictly positive, and the
lower bound stays non-negative across a concrete iteration. -/
theorem c5_witness :
    ((0 : Int) < 8000 ∧ (8000 : Int) < 9000 ∧ (1000 : Int) = 9000 - 8000) ∧
    (0 : Int) < 8000 ∧
    0 ≤ (download_backwards_iter 1
      ⟨fun _ => .ptsTooEarly, [0]⟩
      { latestT := 9000, visited := ∅, ptsTooEarlySegs := ∅, lowerBound := 0,
        prevDelta := 0, skippedSegments := 0, deltas := [(1000, 9)],
        segs := {9000}, submitted := [], calls := [], history := [9000],
        ptsEver := ∅ }).1.lowerBound :=
  ⟨c5_candidate_bounds.1 9000 0 ∅ [(1000, 9)] 1 (8000, 1000) (by decide),
   c5_candidate_bounds.2.2.2 9000 0 ∅ [(1000, 9)] 1 (by decide) (8000, 1000) (by decide),
   c5_candidate_bounds.2.1 1 _ _ (by decide)⟩

/-- In the batch branch, `skipped_segments` never grows: each success
resets it to 0 and every other result leaves it unchanged. -/
theorem iter_batch_skipped (pc : Nat) (env : BatchEnv) {s : LoopState}
    (hc : (find_next_candidates s.latestT s.visited s.lowerBound s.deltas pc).1 ≠ []) :
    (download_backwards_iter pc env s).1.skippedSegments ≤ s.skippedSegments := by
  rw [download_backwards_iter_batch hc]
  refine foldl_processResult_inv (fun x => x.skippedSegments ≤ s.skippedSegments) _ _
    (by simp [dispatchBatch]) ?_
  intro s' r _ hs'
  rcases r with ⟨t, d, o⟩
  cases o <;> simp only [processResult] <;> omega

/-! ### C6: the skip ceiling -/

/-- C6: starting from `skipped_segments ≤ 5` (in particular from the
initial 0), one iteration leaves `skipped_segments ≤ 6` and the whole loop
never lets it exceed 6; the `break` fires exactly on a gap-recovery
increment that pushes it above 5, the give-up state has no new
submissions, and the fuelled loop returns immediately after a breaking
iteration, so no further candidate batch is issued. -/
theorem c6_skip_bound :
    (∀ (pc : Nat) (env : BatchEnv) (s : LoopState), s.skippedSegments ≤ 5 →
        (download_backwards_iter pc env s).1.skippedSegments ≤ 6) ∧
    (∀ (pc : Nat) (env : BatchEnv) (s : LoopState),
        (download_backwards_iter pc env s).2 = true →
        (download_backwards_iter pc env s).1.skippedSegments = s.skippedSegments + 1 ∧
        5 < s.skippedSegments + 1 ∧
        (download_backwards_iter pc env s).1.submitted = s.submitted) ∧
    (∀ (sf : Int) (pc fuel : Nat) (envs : List BatchEnv) (s : LoopState),
        s.skippedSegments ≤ 5 →
        (download_backwards_loop sf pc fuel envs s).skippedSegments ≤ 6) ∧
    (∀ (sf : Int) (pc fuel : Nat) (envs : List BatchEnv) (s : LoopState),
        s.latestT > sf →
        (download_backwards_iter pc (envs.headD defaultEnv) s).2 = true →
        download_backwards_loop sf pc (fuel + 1) envs s =
          (download_backwards_iter pc (envs.headD defaultEnv) s).1) := by
  have hiter : ∀ (pc : Nat) (env : BatchEnv) (s : LoopState), s.skippedSegments ≤ 5 →
      (download_backwards_iter pc env s).1.skippedSegments ≤ 6 := by
    intro pc env s hs
    by_cases hc : (find_next_candidates s.latestT s.visited s.lowerBound s.deltas pc).1 = []
    · rw [download_backwards_iter_empty hc]
      simpa using hs
    · exact le_trans (iter_batch_skipped pc env hc) (by omega)
  have hbreak : ∀ (pc : Nat) (env : BatchEnv) (s : LoopState),
      (download_backwards_iter pc env s).2 = true →
      (download_backwards_iter pc env s).1.skippedSegments = s.skippedSegments + 1 ∧
      5 < s.skippedSegments + 1 ∧
      (download_backwards_iter pc env s).1.submitted = s.submitted := by
    intro pc env s hb
    by_cases hc : (find_next_candidates s.latestT s.visited s.lowerBound s.deltas pc).1 = []
    · rw [download_backwards_iter_empty hc] at hb ⊢
      refine ⟨rfl, ?_, rfl⟩
      simpa using hb
    · rw [download_backwards_iter_batch hc] at hb
      simp at hb
  refine ⟨hiter, hbreak, ?_, ?_⟩
  · intro sf pc fuel
    induction fuel with
    | zero =>
        intro envs s hs
        simpa [download_backwards_loop] using le_trans hs (by omega)
    | succ n ih =>
        intro envs s hs
        rw [download_backwards_loop]
        split
        · rcases hit : download_backwards_iter pc (envs.headD defaultEnv) s with ⟨s', b⟩
          cases b
          · have hskip : s'.skippedSegments ≤ 5 := by
              by_cases hc :
                  (find_next_candidates s.latestT s.visited s.lowerBound s.deltas pc).1 = []
              · rw [download_backwards_iter_empty hc] at hit
                have h1 := congrArg Prod.fst hit
                have h2 := congrArg Prod.snd hit
                simp only at h1 h2
                have h2' : ¬ 5 < s.skippedSegments + 1 := by
                  simpa using h2
                rw [← h1]
                dsimp only
                omega
              · have hb := iter_batch_skipped pc (envs.headD defaultEnv) hc
                rw [hit] at hb
                dsimp only at hb
                omega
            exact ih envs.tail s' hskip
          · have hbtrue : (download_backwards_iter pc (envs.headD defaultEnv) s).2 = true := by
              rw [hit]
            have hb := hbreak pc (envs.headD defaultEnv) s hbtrue
            rw [hit] at hb
            obtain ⟨hb1, -, -⟩ := hb
            show s'.skippedSegments ≤ 6
            dsimp only at hb1
            omega
        · exact le_trans hs (by omega)
  · intro sf pc fuel envs s hguard hb
    rw [download_backwards_loop, if_pos hguard]
    rcases hit : download_backwards_iter pc (envs.headD defaultEnv) s with ⟨s', b⟩
    rw [hit] at hb
    simp at hb
    subst hb
    rfl

/-! ### Concrete loop states and environments for witnesses and
counterexamples -/

/-- Witness for C6 at concrete inputs, applying `c6_skip_bound` to a state
with `skipped_segments = 5`: the bound 6 holds after an iteration and
after a fuelled run, and a breaking iteration ends the loop at once. -/
theorem c6_witness :
    (download_backwards_iter 1 envNotFound exAtCeiling).1.skippedSegments ≤ 6 ∧
    (download_backwards_loop 0 1 2 [envNotFound] exAtCeiling).skippedSegments ≤ 6 ∧
    download_backwards_loop 0 1 1 [] exAtCeiling =
      (download_backwards_iter 1 defaultEnv exAtCeiling).1 := by
  have hemp : (find_next_candidates exAtCeiling.latestT exAtCeiling.visited
      exAtCeiling.lowerBound exAtCeiling.deltas 1).1 = [] := by
    rw [find_next_candidates_tight _ _ _ (by decide)]
  refine ⟨c6_skip_bound.1 1 envNotFound exAtCeiling (by decide),
    c6_skip_bound.2.2.1 0 1 2 [envNotFound] exAtCeiling (by decide),
    c6_skip_bound.2.2.2 0 1 0 [] exAtCeiling (by decide) ?_⟩
  rw [download_backwards_iter_empty hemp]
  decide

/-! ### C2: the lower-bound update on PtsTooEarly -/

/-- Counterexample to C2: the code assigns `lower_bound = candidate_t`
(src/download/backwards.rs line 164), not the claimed
`max(lower_bound, candidate_t)`.  In the concrete batch
`[(8000, 1000), (7500, 1500)]` with both probes `PtsTooEarly`, processing
8000 first raises `lower_bound` to 8000 and processing 7500 next lowers it
to 7500 — the bound decreases within a single batch and the final value is
not the max. -/
theorem c2_counterexample :
    (download_backwards_loop 0 2 1 [envPts] exC2).lowerBound = 7500 ∧
    (processResult exC2 (8000, 1000, .ptsTooEarly)).lowerBound = 8000 ∧
    (processResult (processResult exC2 (8000, 1000, .ptsTooEarly))
      (7500, 1500, .ptsTooEarly)).lowerBound = 7500 ∧
    (7500 : Int) < 8000 ∧
    ¬ (processResult (processResult exC2 (8000, 1000, .ptsTooEarly))
        (7500, 1500, .ptsTooEarly)).lowerBound
      = max (processResult exC2 (8000, 1000, .ptsTooEarly)).lowerBound 7500 := by
  refine ⟨by decide, by decide, by decide, by decide, by decide⟩

/-- C2 amended: a `PtsTooEarly` result records its candidate in
`pts_too_early` and assigns `lower_bound := candidate_t` (not the max, so
the bound may decrease between two results of one batch); since every
candidate of a batch exceeds the `lower_bound` in force when the batch was
generated, the final `lower_bound` of a batch iteration never drops below
that generation-time value. -/
theorem c2_amended :
    (∀ (s : LoopState) (r : Int × Int × FetchOutcome), r.2.2 = .ptsTooEarly →
        (processResult s r).lowerBound = r.1 ∧
        r.1 ∈ (processResult s r).ptsTooEarlySegs) ∧
    (∀ (pc : Nat) (env : BatchEnv) (s : LoopState),
        (find_next_candidates s.latestT s.visited s.lowerBound s.deltas pc).1 ≠ [] →
        s.lowerBound ≤ (download_backwards_iter pc env s).1.lowerBound) := by
  constructor
  · intro s r hr
    rcases r with ⟨t, d, o⟩
    cases o <;> simp at hr
    simp [processResult]
  · intro pc env s hc
    rw [download_backwards_iter_batch hc]
    refine foldl_processResult_inv (fun x => s.lowerBound ≤ x.lowerBound) _ _
      (by simp [dispatchBatch]) ?_
    intro s' r hr hs'
    rcases r with ⟨t, d, o⟩
    cases o <;> simp only [processResult]
    · exact hs'
    · exact hs'
    · obtain ⟨hmem, -⟩ := mkResults_mem hr
      have := ((find_next_candidates_inv s.latestT s.lowerBound s.visited s.deltas pc).1
        (t, d) hmem).1
      omega
    · exact hs'
    · exact hs'

/-- Witness for the amended C2 at concrete inputs: a `PtsTooEarly` result
at 8000 sets the bound to exactly 8000 and records 8000, and a concrete
batch iteration never lowers the bound below its generation-time value. -/
theorem c2_amended_witness :
    ((processResult exBase (8000, 1000, .ptsTooEarly)).lowerBound = 8000 ∧
      (8000 : Int) ∈ (processResult exBase (8000, 1000, .ptsTooEarly)).ptsTooEarlySegs) ∧
    exC2.lowerBound ≤ (download_backwards_iter 2 envPts exC2).1.lowerBound :=
  ⟨c2_amended.1 exBase (8000, 1000, .ptsTooEarly) rfl,
   c2_amended.2 2 envPts exC2 (by decide)⟩

/-! ### C3: monotonicity of `latest_t` -/

/-- Counterexample to C3: when two candidates of one batch both succeed,
each success reassigns `latest_t`, and a later-processed larger candidate
makes the sequence of `latest_t` values rise again.  Concretely the batch
`[(8000, 1000), (8900, 100)]` from `latest_t = 9000` with both probes
successful yields the value sequence `[9000, 8000, 8900]`, which is not
strictly decreasing. -/
theorem c3_counterexample :
    (download_backwards_loop 0 2 1 [envOk] exC3).history = [9000, 8000, 8900] ∧
    ¬ List.Pairwise (fun a b => b < a)
        (download_backwards_loop 0 2 1 [envOk] exC3).history := by
  have h1 : (download_backwards_loop 0 2 1 [envOk] exC3).history = [9000, 8000, 8900] := by
    decide
  refine ⟨h1, ?_⟩
  rw [h1]
  decide

/-- C3 amended: every value assigned to `latest_t` during one iteration
(a successful candidate, or the gap-recovery decrement) is strictly below
the `latest_t` in force when that iteration's batch was generated; the
full assignment sequence need not be strictly decreasing once a batch
contains two or more successes. -/
theorem c3_amended :
    ∀ (pc : Nat) (env : BatchEnv) (s : LoopState),
      ∀ v ∈ (download_backwards_iter pc env s).1.history,
        v ∈ s.history ∨ v < s.latestT := by
  intro pc env s v hv
  by_cases hc : (find_next_candidates s.latestT s.visited s.lowerBound s.deltas pc).1 = []
  · rw [download_backwards_iter_empty hc] at hv
    dsimp only at hv
    rcases List.mem_append.mp hv with hv | hv
    · exact Or.inl hv
    · rcases List.mem_singleton.mp hv with rfl
      right
      have : (0 : Int) < assumedMissingDelta := by decide
      omega
  · rw [download_backwards_iter_batch hc] at hv
    revert v hv
    refine foldl_processResult_inv
      (fun x => ∀ v ∈ x.history, v ∈ s.history ∨ v < s.latestT) _ _
      (fun v hv => Or.inl hv) ?_
    intro s' r hr hs' v hv
    rcases r with ⟨t, d, o⟩
    cases o <;> simp only [processResult] at hv
    · rcases List.mem_append.mp hv with hv | hv
      · exact hs' v hv
      · rcases List.mem_singleton.mp hv with rfl
        obtain ⟨hmem, -⟩ := mkResults_mem hr
        exact Or.inr ((find_next_candidates_inv s.latestT s.lowerBound s.visited
          s.deltas pc).1 (v, d) hmem).2.1
    · exact hs' v hv
    · exact hs' v hv
    · exact hs' v hv
    · exact hs' v hv

/-- Witness for the amended C3 at concrete inputs: the value 8000 that the
first success of the concrete batch assigns to `latest_t` is new and
strictly below the generation-time `latest_t` of 9000. -/
theorem c3_amended_witness :
    (8000 : Int) ∈ exC3.history ∨ (8000 : Int) < exC3.latestT :=
  c3_amended 2 envOk exC3 8000 (by decide)

/-! ### C4: re-submission of PTS-rejected candidates -/

/-- Counterexample to C4: in the concrete two-iteration run the timestamp
8000 is submitted to the fetcher twice.  Batch one submits 8000, 7500 and
8900; 8000 and 7500 are rejected as `PtsTooEarly` and the success at 8900
removes them from `visited` again, after which the second batch
regenerates and re-submits 8000 (9000 → 8900 with delta 900). -/
theorem c4_counterexample :
    (download_backwards_loop 0 3 2 [envC4, envNotFound] exC4).submitted
      = [8000, 7500, 8900, 7900, 8800, 8000] ∧
    ¬ (download_backwards_loop 0 3 2 [envC4, envNotFound] exC4).submitted.Nodup := by
  have h1 : (download_backwards_loop 0 3 2 [envC4, envNotFound] exC4).submitted
      = [8000, 7500, 8900, 7900, 8800, 8000] := by decide
  refine ⟨h1, ?_⟩
  rw [h1]
  decide

/-- C4 amended: a timestamp can be submitted to the fetcher twice — the
success and gap-recovery branches deliberately remove PTS-rejected
candidates from `visited`, making them eligible again — but only such
timestamps repeat: every iteration preserves `SubmitInv`, so along any run
a timestamp submitted more than once was at some point rejected with
`PtsTooEarly`; timestamps never rejected with `PtsTooEarly` are submitted
at most once. -/
theorem c4_amended :
    (∀ (pc : Nat) (env : BatchEnv) (s : LoopState), SubmitInv s →
        SubmitInv (download_backwards_iter pc env s).1) ∧
    (∀ (sf : Int) (pc fuel : Nat) (envs : List BatchEnv) (s : LoopState), SubmitInv s →
        ∀ t : Int, 2 ≤ (download_backwards_loop sf pc fuel envs s).submitted.count t →
          t ∈ (download_backwards_loop sf pc fuel envs s).ptsEver) := by
  have hiter : ∀ (pc : Nat) (env : BatchEnv) (s : LoopState), SubmitInv s →
      SubmitInv (download_backwards_iter pc env s).1 := by
    intro pc env s hs
    obtain ⟨hs1, hs2, hs3⟩ := hs
    by_cases hc : (find_next_candidates s.latestT s.visited s.lowerBound s.deltas pc).1 = []
    · rw [download_backwards_iter_empty hc]
      refine ⟨?_, hs2, by simp⟩
      intro t ht
      rcases hs1 t ht with hv | hp
      · by_cases hpts : t ∈ s.ptsTooEarlySegs
        · exact Or.inr (hs3 t hpts)
        · exact Or.inl (Finset.mem_sdiff.mpr ⟨Finset.mem_insert_of_mem hv, hpts⟩)
      · exact Or.inr hp
    · rw [download_backwards_iter_batch hc]
      obtain ⟨hbnd, hnd, hmemv, hsub, -⟩ :=
        find_next_candidates_inv s.latestT s.lowerBound s.visited s.deltas pc
      have hs₁ : SubmitInv (dispatchBatch
          { s with visited := (find_next_candidates s.latestT s.visited s.lowerBound
              s.deltas pc).2 }
          (find_next_candidates s.latestT s.visited s.lowerBound s.deltas pc).1) := by
        refine ⟨?_, ?_, hs3⟩
        · intro t ht
          rcases List.mem_append.mp ht with ht | ht
          · rcases hs1 t ht with hv | hp
            · exact Or.inl (hsub hv)
            · exact Or.inr hp
          · rcases List.mem_map.mp ht with ⟨p, hp, rfl⟩
            exact Or.inl (hmemv p hp)
        · intro t ht
          simp only [dispatchBatch] at ht
          rw [List.count_append] at ht
          have hnewle : ((find_next_candidates s.latestT s.visited s.lowerBound
            s.deltas pc).1.map Prod.fst).count t ≤ 1 :=
            List.nodup_iff_count_le_one.mp hnd t
          by_cases hold : 2 ≤ s.submitted.count t
          · exact hs2 t hold
          · have htold : t ∈ s.submitted := by
              have : 0 < s.submitted.count t := by omega
              exact List.count_pos_iff.mp this
            have htnewmem : t ∈ (find_next_candidates s.latestT s.visited s.lowerBound
                s.deltas pc).1.map Prod.fst := by
              have : 0 < ((find_next_candidates s.latestT s.visited s.lowerBound
                s.deltas pc).1.map Prod.fst).count t := by omega
              exact List.count_pos_iff.mp this
            rcases List.mem_map.mp htnewmem with ⟨p, hp, rfl⟩
            rcases hs1 p.1 htold with hv | hpe
            · exact absurd hv (hbnd p hp).2.2.2
            · exact hpe
      refine foldl_processResult_inv SubmitInv _ _ hs₁ ?_
      intro s' r _ hinv
      obtain ⟨h1, h2, h3⟩ := hinv
      rcases r with ⟨t, d, o⟩
      cases o
      · refine ⟨?_, h2, ?_⟩
        · intro u hu
          rcases h1 u hu with hv | hp
          · by_cases hpts : u ∈ s'.ptsTooEarlySegs
            · exact Or.inr (h3 u hpts)
            · exact Or.inl (show u ∈ s'.visited \ s'.ptsTooEarlySegs from
                Finset.mem_sdiff.mpr ⟨hv, hpts⟩)
          · exact Or.inr hp
        · intro u hu
          exact absurd (show u ∈ (∅ : Finset Int) from hu) (Finset.not_mem_empty u)
      · exact ⟨h1, h2, h3⟩
      · refine ⟨?_, ?_, ?_⟩
        · intro u hu
          rcases h1 u hu with hv | hp
          · exact Or.inl hv
          · exact Or.inr (show u ∈ insert t s'.ptsEver from Finset.mem_insert_of_mem hp)
        · intro u hu
          exact show u ∈ insert t s'.ptsEver from Finset.mem_insert_of_mem (h2 u hu)
        · intro u hu
          have hu' : u ∈ insert t s'.ptsTooEarlySegs := hu
          rcases Finset.mem_insert.mp hu' with rfl | hx
          · exact show u ∈ insert u s'.ptsEver from Finset.mem_insert_self _ _
          · exact show u ∈ insert t s'.ptsEver from Finset.mem_insert_of_mem (h3 u hx)
      · exact ⟨h1, h2, h3⟩
      · exact ⟨h1, h2, h3⟩
  refine ⟨hiter, ?_⟩
  intro sf pc fuel envs s hs t hcount
  exact (download_backwards_loop_inv SubmitInv hiter sf pc fuel envs s hs).2.1 t hcount

/-- Witness for the amended C4 at concrete inputs: running one batch from
`exC4b` submits 8000 a second time, and the amended theorem explains the
repeat — 8000 was rejected as `PtsTooEarly` before. -/
theorem c4_amended_witness :
    (8000 : Int) ∈ (download_backwards_loop 0 1 1 [envNotFound] exC4b).ptsEver := by
  refine c4_amended.2 0 1 1 [envNotFound] exC4b ⟨?_, ?_, ?_⟩ 8000 (by decide)
  · intro t ht
    right
    simp only [exC4b, exBase] at ht ⊢
    rcases List.mem_singleton.mp ht with rfl
    decide
  · intro t ht
    have : t = 8000 := by
      by_contra hne
      simp [exC4b, exBase, List.count_cons, hne] at ht
    subst this
    simp [exC4b, exBase]
  · intro t ht
    simp [exC4b, exBase] at ht

/-! ### C7: `latest_t` versus `downloaded_segs` -/

/-- Counterexample to C7: after a gap-recovery iteration the loop continues
(no break) with `latest_t = 7000`, which is not in `downloaded_segs`
(still `\x7b9000\x7d`) — gap recovery decrements `latest_t` by 2000 regardless of
membership; and after a batch in which both candidates succeed,
`latest_t = 8900` is the last-processed success while 8000, also
downloaded, is smaller — so `latest_t` is not `min(downloaded_segs[m])`
at the start of the next iteration either. -/
theorem c7_counterexample :
    ((download_backwards_iter 1 envNotFound exBlocked).1.latestT = 7000 ∧
      (download_backwards_iter 1 envNotFound exBlocked).1.segs = {9000} ∧
      (download_backwards_iter 1 envNotFound exBlocked).2 = false ∧
      (7000 : Int) ∉ ({9000} : Finset Int)) ∧
    ((download_backwards_loop 0 2 1 [envOk] exC3).latestT = 8900 ∧
      (8000 : Int) ∈ (download_backwards_loop 0 2 1 [envOk] exC3).segs ∧
      (8000 : Int) < 8900) := by
  have hemp : (find_next_candidates exBlocked.latestT exBlocked.visited
      exBlocked.lowerBound exBlocked.deltas 1).1 = [] := by
    rw [find_next_candidates_tight _ _ _ (by decide)]
  rw [download_backwards_iter_empty hemp]
  exact ⟨⟨by decide, by decide, by decide, by decide⟩, by decide, by decide, by decide⟩

/-- C7 amended: `latest_t` starts as `min(downloaded_segs[m])`; every
processed result preserves `latest_t ∈ downloaded_segs[m]` (a success
assigns a just-registered timestamp), so the membership holds at the start
of every iteration reached through batch iterations only; but it is not
preserved by gap recovery, and after a batch with several successes
`latest_t` is the last-processed success, not necessarily the minimum. -/
theorem c7_amended :
    (∀ (segs : MediaType → Option (Finset Nat)) (m : MediaType) (t : Nat),
        initialLatestT segs m = some t →
        ∃ s, segs m = some s ∧ t ∈ s ∧ ∀ u ∈ s, t ≤ u) ∧
    (∀ (s : LoopState) (r : Int × Int × FetchOutcome),
        s.latestT ∈ s.segs → (processResult s r).latestT ∈ (processResult s r).segs) ∧
    (∀ (pc : Nat) (env : BatchEnv) (s : LoopState),
        (find_next_candidates s.latestT s.visited s.lowerBound s.deltas pc).1 ≠ [] →
        s.latestT ∈ s.segs →
        (download_backwards_iter pc env s).1.latestT
          ∈ (download_backwards_iter pc env s).1.segs) := by
  have hres : ∀ (s : LoopState) (r : Int × Int × FetchOutcome),
      s.latestT ∈ s.segs → (processResult s r).latestT ∈ (processResult s r).segs := by
    intro s r hs
    rcases r with ⟨t, d, o⟩
    cases o
    · exact show t ∈ insert t s.segs from Finset.mem_insert_self _ _
    · exact hs
    · exact hs
    · exact hs
    · exact hs
  refine ⟨?_, hres, ?_⟩
  · intro segs m t ht
    unfold initialLatestT at ht
    rcases hm : segs m with - | s
    · rw [hm] at ht
      simp at ht
    · rw [hm] at ht
      dsimp only at ht
      by_cases hne : s.Nonempty
      · rw [dif_pos hne] at ht
        rcases Option.some.injEq _ _ ▸ ht with rfl
        exact ⟨s, rfl, by
          rw [← Option.some.inj ht]
          exact s.min'_mem hne, by
          intro u hu
          rw [← Option.some.inj ht]
          exact s.min'_le u hu⟩
      · rw [dif_neg hne] at ht
        simp at ht
  · intro pc env s hc hs
    rw [download_backwards_iter_batch hc]
    refine foldl_processResult_inv (fun x => x.latestT ∈ x.segs) _ _ hs ?_
    intro s' r _ hs'
    exact hres s' r hs'

/-- Witness for the amended C7 at concrete inputs: the membership
`latest_t ∈ downloaded_segs` survives a concrete batch iteration, and a
processed success keeps it. -/
theorem c7_amended_witness :
    (download_backwards_iter 2 envOk exC3).1.latestT
      ∈ (download_backwards_iter 2 envOk exC3).1.segs ∧
    (processResult exBase (8000, 1000, .ok)).latestT
      ∈ (processResult exBase (8000, 1000, .ok)).segs :=
  ⟨c7_amended.2.2 2 envOk exC3 (by decide) (by decide),
   c7_amended.2.1 exBase (8000, 1000, .ok) (by decide)⟩

/-! ### C9: determinism of the candidate generator -/

theorem countFiber_cons (c : Int) (p : Int × Int) (l : List (Int × Int)) :
    countFiber c (p :: l)
      = if p.2 = c then p :: countFiber c l else countFiber c l := by
  by_cases h : p.2 = c <;> simp [countFiber, List.filter_cons, h]

theorem countFiber_insertDesc (c : Int) (x : Int × Int) :
    ∀ m : List (Int × Int), countFiber c (insertDesc x m) = countFiber c (x :: m)
  | [] => rfl
  | y :: ys => by
      unfold insertDesc
      split
      · next hlt =>
        rw [countFiber_cons, countFiber_insertDesc c x ys]
        rw [countFiber_cons c x (y :: ys), countFiber_cons c x ys, countFiber_cons]
        by_cases hx : x.2 = c
        · have hy : ¬ y.2 = c := by omega
          simp [hx, hy]
        · by_cases hy : y.2 = c <;> simp [hx, hy]
      · rfl

theorem sortDesc_fiber (c : Int) :
    ∀ l : List (Int × Int), countFiber c (sortDesc l) = countFiber c l
  | [] => rfl
  | a :: l => by
      show countFiber c (insertDesc a (sortDesc l)) = _
      rw [countFiber_insertDesc, countFiber_cons, countFiber_cons,
        sortDesc_fiber c l]

theorem mem_insertDesc {a x : Int × Int} :
    ∀ (m : List (Int × Int)), a ∈ insertDesc x m ↔ a = x ∨ a ∈ m
  | [] => by simp [insertDesc]
  | y :: ys => by
      unfold insertDesc
      split
      · simp only [List.mem_cons, mem_insertDesc ys]
        tauto
      · simp only [List.mem_cons]

theorem insertDesc_sorted {x : Int × Int} :
    ∀ {m : List (Int × Int)}, DescSorted m → DescSorted (insertDesc x m)
  | [], _ => by simp [insertDesc, DescSorted]
  | y :: ys, h => by
      obtain ⟨hy, hys⟩ := List.pairwise_cons.mp h
      unfold insertDesc
      split
      · next hlt =>
        refine List.pairwise_cons.mpr ⟨?_, insertDesc_sorted hys⟩
        intro z hz
        rcases (mem_insertDesc _).mp hz with rfl | hz
        · omega
        · exact hy z hz
      · next hge =>
        refine List.pairwise_cons.mpr ⟨?_, h⟩
        intro z hz
        rcases List.mem_cons.mp hz with rfl | hz
        · omega
        · have := hy z hz
          omega

theorem sortDesc_sorted : ∀ l : List (Int × Int), DescSorted (sortDesc l)
  | [] => List.Pairwise.nil
  | a :: l => by
      show DescSorted (insertDesc a (sortDesc l))
      exact insertDesc_sorted (sortDesc_sorted l)

/-- A descending-sorted list is fully determined by its count fibers. -/
theorem descSorted_fiber_unique :
    ∀ (s1 s2 : List (Int × Int)), DescSorted s1 → DescSorted s2 →
      (∀ c : Int, countFiber c s1 = countFiber c s2) → s1 = s2
  | [], [], _, _, _ => rfl
  | [], b :: t2, _, _, hfib => by
      have h := (hfib b.2).symm
      rw [countFiber_cons] at h
      simp [countFiber] at h
  | a :: t1, [], _, _, hfib => by
      have h := hfib a.2
      rw [countFiber_cons] at h
      simp [countFiber] at h
  | a :: t1, b :: t2, h1, h2, hfib => by
      obtain ⟨ha, ht1⟩ := List.pairwise_cons.mp h1
      obtain ⟨hb, ht2⟩ := List.pairwise_cons.mp h2
      have hab : a.2 = b.2 := by
        have hmem1 : ∃ x, x ∈ b :: t2 ∧ x.2 = a.2 := by
          have hne : countFiber a.2 (b :: t2) ≠ [] := by
            rw [← hfib a.2, countFiber_cons]
            simp
          rcases hx : countFiber a.2 (b :: t2) with - | ⟨x, xs⟩
          · exact absurd hx hne
          · have hxmem : x ∈ countFiber a.2 (b :: t2) := by rw [hx]; simp
            obtain ⟨hx1, hx2⟩ := List.mem_filter.mp hxmem
            exact ⟨x, hx1, by simpa using hx2⟩
        have hmem2 : ∃ x, x ∈ a :: t1 ∧ x.2 = b.2 := by
          have hne : countFiber b.2 (a :: t1) ≠ [] := by
            rw [hfib b.2, countFiber_cons]
            simp
          rcases hx : countFiber b.2 (a :: t1) with - | ⟨x, xs⟩
          · exact absurd hx hne
          · have hxmem : x ∈ countFiber b.2 (a :: t1) := by rw [hx]; simp
            obtain ⟨hx1, hx2⟩ := List.mem_filter.mp hxmem
            exact ⟨x, hx1, by simpa using hx2⟩
        obtain ⟨x, hx1, hx2⟩ := hmem1
        obtain ⟨z, hz1, hz2⟩ := hmem2
        have hxb : x.2 ≤ b.2 := by
          rcases List.mem_cons.mp hx1 with rfl | hx1
          · omega
          · exact hb x hx1
        have hza : z.2 ≤ a.2 := by
          rcases List.mem_cons.mp hz1 with rfl | hz1
          · omega
          · exact ha z hz1
        omega
      have hcons := hfib a.2
      rw [countFiber_cons, countFiber_cons] at hcons
      rw [if_pos rfl, if_pos hab.symm] at hcons
      obtain ⟨hhead, htail⟩ := List.cons.injEq a _ b _ ▸ hcons
      have htails : ∀ c : Int, countFiber c t1 = countFiber c t2 := by
        intro c
        by_cases hc : c = a.2
        · subst hc
          exact htail
        · have := hfib c
          rw [countFiber_cons, countFiber_cons, if_neg (by omega),
            if_neg (by rw [← hab] at *; omega)] at this
          exact this
      rw [hhead, descSorted_fiber_unique t1 t2 ht1 ht2 htails]

theorem find_next_candidates_eq_run (lt : Int) (v : Finset Int) (lb : Int)
    (d : List (Int × Int)) (pc : Nat) :
    find_next_candidates lt v lb d pc = fncSortedRun lt v lb (sortDesc d) pc := rfl

/-- C9: the candidate generator is deterministic.  The code's sort
(`sortDesc`, modelling the stable `sort_by`) is a stable descending sort
of the snapshot; any two stable descending sorts of the same snapshot are
equal — including the order among deltas with equal frequency counts — so
any two invocations of the generator on identical inputs run the scan on
the same sorted list and return identical candidate lists, element for
element and in order, together with identical `visited` sets. -/
theorem c9_generator_deterministic :
    (∀ d : List (Int × Int), IsStableDescSort d (sortDesc d)) ∧
    (∀ d s1 s2 : List (Int × Int),
        IsStableDescSort d s1 → IsStableDescSort d s2 → s1 = s2) ∧
    (∀ (lt lb : Int) (v : Finset Int) (d s1 s2 : List (Int × Int)) (pc : Nat),
        IsStableDescSort d s1 → IsStableDescSort d s2 →
        fncSortedRun lt v lb s1 pc = fncSortedRun lt v lb s2 pc ∧
        fncSortedRun lt v lb s1 pc = find_next_candidates lt v lb d pc) := by
  have hsort : ∀ d : List (Int × Int), IsStableDescSort d (sortDesc d) :=
    fun d => ⟨sortDesc_sorted d, fun c => sortDesc_fiber c d⟩
  have huniq : ∀ d s1 s2 : List (Int × Int),
      IsStableDescSort d s1 → IsStableDescSort d s2 → s1 = s2 := by
    intro d s1 s2 h1 h2
    exact descSorted_fiber_unique s1 s2 h1.1 h2.1
      (fun c => (h1.2 c).trans (h2.2 c).symm)
  refine ⟨hsort, huniq, ?_⟩
  intro lt lb v d s1 s2 pc h1 h2
  have e12 : s1 = s2 := huniq d s1 s2 h1 h2
  have e1 : s1 = sortDesc d := huniq d s1 (sortDesc d) h1 (hsort d)
  subst e12
  constructor
  · rfl
  · rw [e1, find_next_candidates_eq_run]

/-- Witness for C9 at a concrete input with a frequency tie (both deltas
have count 5): applying the theorem to the code's own sort on both sides
yields the identical-output conclusion. -/
theorem c9_witness :
    fncSortedRun 9000 ∅ 0 (sortDesc [(1000, 5), (2000, 5)]) 2
      = find_next_candidates 9000 ∅ 0 [(1000, 5), (2000, 5)] 2 :=
  (c9_generator_deterministic.2.2 9000 0 ∅ [(1000, 5), (2000, 5)]
    (sortDesc [(1000, 5), (2000, 5)]) (sortDesc [(1000, 5), (2000, 5)]) 2
    (c9_generator_deterministic.1 [(1000, 5), (2000, 5)])
    (c9_generator_deterministic.1 [(1000, 5), (2000, 5)])).2

/-! ### C1: the boolean passed to the Segment Fetcher -/

/-- One unfolding of the fuelled loop when the guard holds and only one
iteration of fuel remains. -/
theorem download_backwards_loop_one (sf : Int) (pc : Nat) (envs : List BatchEnv)
    (s : LoopState) (h : s.latestT > sf) :
    download_backwards_loop sf pc 1 envs s
      = (download_backwards_iter pc (envs.headD defaultEnv) s).1 := by
  rw [download_backwards_loop, if_pos h]
  rcases hit : download_backwards_iter pc (envs.headD defaultEnv) s with ⟨s', b⟩
  cases b <;> rfl

/-- One unfolding of the fuelled loop when the guard holds and the
iteration does not break. -/
theorem download_backwards_loop_succ (sf : Int) (pc fuel : Nat)
    (envs : List BatchEnv) (s : LoopState) (h : s.latestT > sf)
    (hb : (download_backwards_iter pc (envs.headD defaultEnv) s).2 = false) :
    download_backwards_loop sf pc (fuel + 1) envs s =
      download_backwards_loop sf pc fuel envs.tail
        (download_backwards_iter pc (envs.headD defaultEnv) s).1 := by
  rw [download_backwards_loop, if_pos h]
  rcases hit : download_backwards_iter pc (envs.headD defaultEnv) s with ⟨s', b⟩
  rw [hit] at hb
  dsimp only at hb
  subst hb
  rfl

/-- C1 evaluated on the code: `download_backwards` passes
`(skipped_segments == 0)` as the fetcher's `ignore_pts` argument
(src/download/backwards.rs line 121), which is the opposite of the claim
and of the code's own comment "ignore PTS check if we've lost previous
segment(s)".  Concretely: the first batch of a run (`skipped_segments =
0`) is fetched with the boolean `true` (PTS check bypassed), and the first
batch after a gap-recovery event (`skipped_segments = 1`) is fetched with
the boolean `false` (PTS check enforced). -/
theorem c1_ignore_pts_code_bug :
    exC1.skippedSegments = 0 ∧
    (download_backwards_loop 0 1 1 [envNotFound] exC1).calls = [(8000, true)] ∧
    (download_backwards_loop 0 1 1 [envNotFound] exBlocked).skippedSegments = 1 ∧
    (download_backwards_loop 0 1 1 [envNotFound] exBlocked).calls = [] ∧
    (download_backwards_loop 0 1 2 [envNotFound, envNotFound] exBlocked).calls
      = [(6000, false)] := by
  have hemp : (find_next_candidates exBlocked.latestT exBlocked.visited
      exBlocked.lowerBound exBlocked.deltas 1).1 = [] := by
    rw [find_next_candidates_tight _ _ _ (by decide)]
  have hflag : (download_backwards_iter 1
      (([envNotFound, envNotFound] : List BatchEnv).headD defaultEnv) exBlocked).2
        = false := by
    rw [download_backwards_iter_empty hemp]
    decide
  refine ⟨rfl, by decide, ?_, ?_, ?_⟩
  · rw [download_backwards_loop_one 0 1 [envNotFound] exBlocked (by decide)]
    rw [show ([envNotFound] : List BatchEnv).headD defaultEnv = envNotFound from rfl]
    rw [download_backwards_iter_empty hemp]
    decide
  · rw [download_backwards_loop_one 0 1 [envNotFound] exBlocked (by decide)]
    rw [show ([envNotFound] : List BatchEnv).headD defaultEnv = envNotFound from rfl]
    rw [download_backwards_iter_empty hemp]
    decide
  · rw [download_backwards_loop_succ 0 1 1 [envNotFound, envNotFound] exBlocked
      (by decide) hflag]
    rw [show (([envNotFound, envNotFound] : List BatchEnv).headD defaultEnv)
      = envNotFound from rfl]
    rw [download_backwards_iter_empty hemp]
    decide

/-! ### C8: the seeded delta prior -/


/-- C8: after `State::new`, the delta histogram of each of Video and Audio
holds exactly the §6 prior pairs — in particular the final count at key
2000 is 100 (the explicit strong-prior insert overwrites the count 10 the
`x = 20` rule produced) and the count at key 100 is 2 — and the Video and
Audio histograms are equal to each other. -/
theorem c8_default_deltas :
    default_delta.toFinset = c8SpecPrior.toFinset ∧
    hmLookup default_delta 2000 = some 100 ∧
    hmLookup default_delta 100 = some 2 ∧
    State.new.deltas .video = some default_delta ∧
    State.new.deltas .audio = some default_delta ∧
    State.new.deltas .video = State.new.deltas .audio := by
  refine ⟨by decide, by decide, by decide, rfl, rfl, rfl⟩

/-! ### C10: precondition of the initial `latest_t` computation -/

/-- C10: the initial computation of `latest_t` panics (models to `none`)
when the representation's mime type starts with neither "video/" nor
"audio/" — `media_type()` is then `Unknown`, for which `State::new`
creates no `downloaded_segs` entry — or when the entry's set is empty;
and under the precondition that the entry exists and is non-empty it
returns the minimum of the set (the unwrap branch is unreachable). -/
theorem c10_initial_latest_precondition :
    (∀ r : Representation,
        ¬ strStartsWith r.mime_type "video/" → ¬ strStartsWith r.mime_type "audio/" →
        r.media_type = .unknown ∧
        State.new.downloaded_segs r.media_type = none ∧
        initialLatestT State.new.downloaded_segs r.media_type = none) ∧
    (∀ (segs : MediaType → Option (Finset Nat)) (m : MediaType),
        segs m = none → initialLatestT segs m = none) ∧
    (∀ (segs : MediaType → Option (Finset Nat)) (m : MediaType),
        segs m = some ∅ → initialLatestT segs m = none) ∧
    (∀ (segs : MediaType → Option (Finset Nat)) (m : MediaType) (s : Finset Nat),
        segs m = some s → s.Nonempty →
        ∃ t, initialLatestT segs m = some t ∧ t ∈ s ∧ ∀ u ∈ s, t ≤ u) := by
  refine ⟨?_, ?_, ?_, ?_⟩
  · intro r hv ha
    have hmt : r.media_type = .unknown := by
      unfold Representation.media_type
      rw [if_neg hv, if_neg ha]
    refine ⟨hmt, ?_, ?_⟩
    · rw [hmt]; rfl
    · rw [hmt]; rfl
  · intro segs m h
    unfold initialLatestT
    rw [h]
  · intro segs m h
    unfold initialLatestT
    rw [h]
    simp
  · intro segs m s h hne
    unfold initialLatestT
    rw [h]
    dsimp only
    rw [dif_pos hne]
    exact ⟨s.min' hne, rfl, s.min'_mem hne, fun u hu => s.min'_le u hu⟩

/-- Witness for C10 at concrete inputs: an "application/mp4" representation
maps to `Unknown` and the initial `latest_t` computation panics on the
fresh state; a non-empty entry `\x7b5, 9\x7d` yields its minimum. -/
theorem c10_witness :
    (Representation.media_type ⟨"application/mp4"⟩ = .unknown ∧
      State.new.downloaded_segs (Representation.media_type ⟨"application/mp4"⟩) = none ∧
      initialLatestT State.new.downloaded_segs
        (Representation.media_type ⟨"application/mp4"⟩) = none) ∧
    initialLatestT (fun _ => some ∅) .video = none ∧
    (∃ t, initialLatestT (fun _ => some ({5, 9} : Finset Nat)) .video = some t ∧
      t ∈ ({5, 9} : Finset Nat) ∧ ∀ u ∈ ({5, 9} : Finset Nat), t ≤ u) := by
  refine ⟨c10_initial_latest_precondition.1 ⟨"application/mp4"⟩ (by decide) (by decide),
    c10_initial_latest_precondition.2.2.1 (fun _ => some ∅) .video rfl,
    c10_initial_latest_precondition.2.2.2 (fun _ => some ({5, 9} : Finset Nat)) .video
      ({5, 9} : Finset Nat) rfl (by decide)⟩

end IgLive
